import Mathlib

/-!
Verification development for the `GroupedSelect` dropdown component
(`src/components/common/GroupedSelect.tsx`).

The component is embedded shallowly:

* `SelectOption` mirrors the `SelectOption` interface (`value`, `label`,
  optional `group`).
* `groupedObject` mirrors the `options.reduce` at lines 32–39: a JavaScript
  plain object is modelled as an association list ordered by key-creation
  order, together with the prototype chain of the object literal: when a
  group name collides with an inherited `Object.prototype` property,
  `!acc[group]` is false, the bucket is never created, and
  `acc[group].push(option)` throws `TypeError` — modelled as `none`.
  `groupBuckets` is the value the reduce produces when no such collision
  occurs (and `pushToBucket` is its per-option push).
* `objectEntries` mirrors `Object.entries(groupedOptions)` at line 111,
  including the ECMAScript own-property-key ordering: keys that are
  canonical array indices come first in ascending numeric order, the
  remaining string keys follow in creation (first-seen) order.
* `selectedLabel` mirrors `selectedOption?.label || placeholder`
  (lines 42–43), where `||` treats the empty string as falsy.
* `stepEvent` / `runEvents` model the event handlers (trigger click,
  option-row click via `handleSelect`, the document `mousedown` listener).
* `render` models the returned JSX as a list of abstract nodes; the panel
  subtree is guarded by `isOpen && (...)`.
* `effectSetup` / `effectCleanup` / `effectTrace` model the `useEffect`
  with dependency `[isOpen]` that installs / removes the document-level
  `mousedown` listener.
-/

namespace GroupedSelect

/-- The `SelectOption` interface: `value: string; label: string; group?: string`. -/
structure SelectOption where
  value : String
  label : String
  group : Option String
deriving DecidableEq

/-- The group key chosen for an option: `option.group || 'Other'`.
In JavaScript both `undefined` (absent field) and the empty string are
falsy, so both fall back to `'Other'`. -/
def jsGroup (o : SelectOption) : String :=
  match o.group with
  | some g => if g = "" then "Other" else g
  | none => "Other"

/-- The successful push path of the reduce body, taken when `acc[group]`
does not hit the prototype chain: if an own bucket already exists, push
the option onto it, otherwise `acc[group] = []` creates the key at the
end (JavaScript objects record string-key creation order) and the push
appends. The inherited-property `TypeError` path is modelled in
`reduceStep`, not here. -/
def pushToBucket (acc : List (String × List SelectOption)) (g : String)
    (o : SelectOption) : List (String × List SelectOption) :=
  match acc with
  | [] => [(g, [o])]
  | (k, v) :: rest =>
    if k = g then (k, v ++ [o]) :: rest else (k, v) :: pushToBucket rest g o

/-- The accumulator object the reduce of lines 32–39 produces when it
completes without a prototype-chain collision, as an association list in
key-creation order. `groupedObject` below is the full fallible
semantics; it returns `some (groupBuckets options)` exactly on the
crash-free inputs. -/
def groupBuckets (options : List SelectOption) : List (String × List SelectOption) :=
  options.foldl (fun acc o => pushToBucket acc (jsGroup o) o) []

/-- Property lookup on the modelled object. -/
def lookupB (k : String) : List (String × List SelectOption) → Option (List SelectOption)
  | [] => none
  | (g, v) :: rest => if g = k then some v else lookupB k rest

/-- Modelled from ECMAScript: the own property names of
`Object.prototype` (including the Annex B accessors), inherited by the
object-literal accumulator. For such a name `g` with no own property,
`acc[g]` evaluates to the inherited function (or, for `"__proto__"`, to
`Object.prototype` itself), which is truthy. -/
def protoProps : List String :=
  ["constructor", "hasOwnProperty", "isPrototypeOf", "propertyIsEnumerable",
   "toLocaleString", "toString", "valueOf", "__proto__",
   "__defineGetter__", "__defineSetter__", "__lookupGetter__",
   "__lookupSetter__"]

/-- One iteration of the reduce body of lines 32–39, prototype chain
included. `!acc[group]` is false either when an own bucket exists (the
push appends) or when the name hits an inherited `Object.prototype`
property (then the bucket is never initialized and `acc[group].push`
throws `TypeError`, modelled as `none`); otherwise `acc[group] = []`
creates the bucket and the push appends. -/
def reduceStep (acc : List (String × List SelectOption)) (o : SelectOption) :
    Option (List (String × List SelectOption)) :=
  let g := jsGroup o
  if g ∈ acc.map Prod.fst then some (pushToBucket acc g o)
  else if g ∈ protoProps then none
  else some (pushToBucket acc g o)

/-- Run the reduce from a given accumulator, propagating the thrown
`TypeError` as `none`. -/
def runReduce (acc : List (String × List SelectOption)) :
    List SelectOption → Option (List (String × List SelectOption))
  | [] => some acc
  | o :: rest =>
    match reduceStep acc o with
    | none => none
    | some acc2 => runReduce acc2 rest

/-- The `options.reduce(...)` of lines 32–39 in full: the accumulator
object in key-creation order, or `none` when the reduce throws. -/
def groupedObject (options : List SelectOption) :
    Option (List (String × List SelectOption)) :=
  runReduce [] options

/-- Decimal digit test on a character. -/
def isDigitChar (c : Char) : Bool :=
  48 ≤ c.toNat && c.toNat ≤ 57

/-- Value of a string of decimal digits. -/
def digitsVal (cs : List Char) : Nat :=
  cs.foldl (fun n c => n * 10 + (c.toNat - 48)) 0

/-- Whether a string is a canonical ECMAScript array index: the decimal
rendering (no leading zeros) of some `n < 2^32 - 1` (so `"0"`, `"7"`, but
not `"07"`, `"-1"`, `"Other"`). `Object.entries` lists such keys first,
numerically ascending. -/
def isArrayIndex (s : String) : Bool :=
  match s.data with
  | [] => false
  | c :: cs =>
    (c :: cs).all isDigitChar && (cs.isEmpty || c != '0') &&
      digitsVal (c :: cs) < 4294967295

/-- Numeric value of an array-index key (on non-numeric strings, which are
never passed to it, it returns the digits-only value). -/
def keyNum (s : String) : Nat :=
  digitsVal s.data

/-- Insert an entry into a list sorted by ascending numeric key. -/
def insertIdx (p : String × List SelectOption) :
    List (String × List SelectOption) → List (String × List SelectOption)
  | [] => [p]
  | q :: qs => if keyNum p.1 ≤ keyNum q.1 then p :: q :: qs else q :: insertIdx p qs

/-- Sort entries by ascending numeric key (insertion sort). -/
def sortIdx : List (String × List SelectOption) → List (String × List SelectOption)
  | [] => []
  | p :: ps => insertIdx p (sortIdx ps)

/-- The ordering `Object.entries` applies to the modelled object:
array-index keys first in ascending numeric order, then the remaining
keys in creation order. -/
def objectEntries (assoc : List (String × List SelectOption)) :
    List (String × List SelectOption) :=
  sortIdx (assoc.filter (fun p => isArrayIndex p.1)) ++
    assoc.filter (fun p => !isArrayIndex p.1)

/-- The sequence of `[group, groupOptions]` pairs the render maps over at
line 111: `Object.entries(groupedOptions)`. -/
def groupedOptions (options : List SelectOption) : List (String × List SelectOption) :=
  objectEntries (groupBuckets options)

/-- Modelled from the spec: the order in which each distinct group name is
first seen during a single left-to-right iteration of the option list
(general helper: `seen` holds the names already emitted). -/
def dedupFirst : List String → List String → List String
  | _, [] => []
  | seen, g :: gs =>
    if g ∈ seen then dedupFirst seen gs else g :: dedupFirst (seen ++ [g]) gs

/-- Modelled from the spec: first-seen order of the derived group names. -/
def firstSeenGroups (options : List SelectOption) : List String :=
  dedupFirst [] (options.map jsGroup)

/-- The default of the `placeholder` prop: `placeholder = 'Select...'`. -/
def defaultPlaceholder : String :=
  "Select..."

/-- The `useState(false)` initial value of `isOpen`. -/
def initialIsOpen : Bool :=
  false

/-- The trigger label of lines 42–43:
`options.find(opt => opt.value === value)` then
`selectedOption?.label || placeholder` (an empty or missing label is falsy
and falls back to the placeholder). -/
def selectedLabel (value : String) (options : List SelectOption)
    (placeholder : String) : String :=
  match options.find? (fun opt => opt.value == value) with
  | some opt => if opt.label = "" then placeholder else opt.label
  | none => placeholder

/-- The discrete input events the component reacts to:
trigger click, option-row click (value `v`), and a document-level
`mousedown` whose target is inside (`true`) or outside (`false`) the
container subtree. -/
inductive Event where
  | triggerClick : Event
  | optionClick : String → Event
  | press : Bool → Event

/-- One event step. The result is the new `isOpen` value together with the
list of `onChange` invocations the handler performs.

* trigger: `onClick={() => !disabled && setIsOpen(!isOpen)}`;
* option row: `handleSelect` = `onChange(optionValue); setIsOpen(false)`;
* document `mousedown`: the listener is registered only while `isOpen`,
  and closes when the target is not contained in `containerRef.current`. -/
def stepEvent (disabled : Bool) (isOpen : Bool) : Event → Bool × List String
  | Event.triggerClick => (if disabled then isOpen else !isOpen, [])
  | Event.optionClick v => (false, [v])
  | Event.press inside => (if isOpen && !inside then false else isOpen, [])

/-- Run a sequence of events, accumulating all `onChange` invocations. -/
def runEvents (disabled : Bool) (isOpen : Bool) (es : List Event) :
    Bool × List String :=
  es.foldl
    (fun st e =>
      let r := stepEvent disabled st.1 e
      (r.1, st.2 ++ r.2))
    (isOpen, [])

/-- Abstract render nodes: the trigger button (label, disabled flag,
chevron rotation tied to `isOpen`), a group header, an option row
(value, label, selected marker `option.value === value`). -/
inductive RNode where
  | trigger : String → Bool → Bool → RNode
  | groupHeader : String → RNode
  | optionRow : String → String → Bool → RNode
deriving DecidableEq

/-- Whether a node is an option-row button. -/
def isOptionRow : RNode → Bool
  | RNode.optionRow _ _ _ => true
  | _ => false

/-- The panel subtree of lines 100–143: for each `[group, groupOptions]`
of `Object.entries(groupedOptions)`, a group header followed by one
option-row button per option. -/
def panelNodes (value : String) (options : List SelectOption) : List RNode :=
  (groupedOptions options).foldr
    (fun p acc =>
      (RNode.groupHeader p.1 ::
        p.2.map (fun o => RNode.optionRow o.value o.label (o.value == value))) ++ acc)
    []

/-- The rendered tree as a flat node list: the trigger is always present;
the panel appears only under the `isOpen && (...)` guard. -/
def render (value : String) (options : List SelectOption) (placeholder : String)
    (disabled : Bool) (isOpen : Bool) : List RNode :=
  RNode.trigger (selectedLabel value options placeholder) disabled isOpen ::
    (if isOpen then panelNodes value options else [])

/-- Effect setup of the `useEffect` at lines 46–60: add the document
`mousedown` listener only when `isOpen`. `count` is the number of
currently registered listeners. -/
def effectSetup (isOpen : Bool) (count : Nat) : Nat :=
  if isOpen then count + 1 else count

/-- Effect cleanup: `removeEventListener` removes the listener the paired
setup added (a no-op when none was added). -/
def effectCleanup (prevOpen : Bool) (count : Nat) : Nat :=
  if prevOpen then count - 1 else count

/-- One committed re-render with dependency array `[isOpen]`: the effect
re-runs (cleanup of the previous run, then setup) only when `isOpen`
changed. -/
def commitEffect (prevOpen : Bool) (count : Nat) (newOpen : Bool) : Nat :=
  if newOpen == prevOpen then count
  else effectSetup newOpen (effectCleanup prevOpen count)

/-- The listener state after mounting (initial effect run with
`isOpen = false`) and then committing an arbitrary sequence of `isOpen`
values: final `isOpen` paired with the number of registered listeners. -/
def effectTrace (updates : List Bool) : Bool × Nat :=
  updates.foldl
    (fun st b => (b, commitEffect st.1 st.2 b))
    (initialIsOpen, effectSetup initialIsOpen 0)

/-! ### Lemmas about the grouping object -/

theorem lookupB_pushToBucket_self (acc : List (String × List SelectOption))
    (g : String) (o : SelectOption) :
    lookupB g (pushToBucket acc g o) = some ((lookupB g acc).getD [] ++ [o]) := by
  induction acc with
  | nil => simp [pushToBucket, lookupB]
  | cons p rest ih =>
    obtain ⟨k, v⟩ := p
    by_cases hk : k = g
    · subst hk
      simp [pushToBucket, lookupB]
    · simp [pushToBucket, lookupB, hk, ih]

theorem lookupB_pushToBucket_ne (acc : List (String × List SelectOption))
    (g k : String) (o : SelectOption) (hk : k ≠ g) :
    lookupB k (pushToBucket acc g o) = lookupB k acc := by
  induction acc with
  | nil => simp [pushToBucket, lookupB, Ne.symm hk]
  | cons p rest ih =>
    obtain ⟨k', v⟩ := p
    by_cases hk' : k' = g
    · subst hk'
      simp [pushToBucket, lookupB, Ne.symm hk]
    · simp [pushToBucket, lookupB, hk', ih]

theorem keys_pushToBucket (acc : List (String × List SelectOption))
    (g : String) (o : SelectOption) :
    (pushToBucket acc g o).map Prod.fst =
      if g ∈ acc.map Prod.fst then acc.map Prod.fst
      else acc.map Prod.fst ++ [g] := by
  induction acc with
  | nil => simp [pushToBucket]
  | cons p rest ih =>
    obtain ⟨k, v⟩ := p
    by_cases hk : k = g
    · subst hk
      simp [pushToBucket]
    · by_cases hmem : g ∈ rest.map Prod.fst
      · simp [pushToBucket, hk, ih, hmem, Ne.symm hk]
      · simp [pushToBucket, hk, ih, hmem, Ne.symm hk]

theorem lookupB_foldl_some (options : List SelectOption) :
    ∀ (acc : List (String × List SelectOption)) (g : String) (v : List SelectOption),
      lookupB g acc = some v →
      lookupB g (options.foldl (fun acc o => pushToBucket acc (jsGroup o) o) acc) =
        some (v ++ options.filter (fun o => jsGroup o == g)) := by
  induction options with
  | nil =>
    intro acc g v h
    simpa using h
  | cons o rest ih =>
    intro acc g v h
    simp only [List.foldl_cons, List.filter_cons]
    by_cases hg : jsGroup o = g
    · subst hg
      have h1 : lookupB (jsGroup o) (pushToBucket acc (jsGroup o) o) = some (v ++ [o]) := by
        rw [lookupB_pushToBucket_self, h]
        rfl
      rw [ih _ _ _ h1]
      simp
    · have h1 : lookupB g (pushToBucket acc (jsGroup o) o) = some v := by
        rw [lookupB_pushToBucket_ne _ _ _ _ (fun h' => hg h'.symm)]
        exact h
      rw [ih _ _ _ h1]
      simp [hg]

theorem lookupB_foldl_none (options : List SelectOption) :
    ∀ (acc : List (String × List SelectOption)) (g : String),
      lookupB g acc = none →
      lookupB g (options.foldl (fun acc o => pushToBucket acc (jsGroup o) o) acc) =
        if options.any (fun o => jsGroup o == g) then
          some (options.filter (fun o => jsGroup o == g))
        else none := by
  induction options with
  | nil =>
    intro acc g h
    simpa using h
  | cons o rest ih =>
    intro acc g h
    simp only [List.foldl_cons, List.filter_cons, List.any_cons]
    by_cases hg : jsGroup o = g
    · subst hg
      have h1 : lookupB (jsGroup o) (pushToBucket acc (jsGroup o) o) = some [o] := by
        rw [lookupB_pushToBucket_self, h]
        rfl
      rw [lookupB_foldl_some rest _ _ _ h1]
      simp
    · have h1 : lookupB g (pushToBucket acc (jsGroup o) o) = none := by
        rw [lookupB_pushToBucket_ne _ _ _ _ (fun h' => hg h'.symm)]
        exact h
      rw [ih _ _ h1]
      simp [hg]

theorem keys_foldl (options : List SelectOption) :
    ∀ acc : List (String × List SelectOption),
      (options.foldl (fun acc o => pushToBucket acc (jsGroup o) o) acc).map Prod.fst =
        acc.map Prod.fst ++ dedupFirst (acc.map Prod.fst) (options.map jsGroup) := by
  induction options with
  | nil =>
    intro acc
    simp [dedupFirst]
  | cons o rest ih =>
    intro acc
    simp only [List.foldl_cons, List.map_cons]
    rw [ih, keys_pushToBucket]
    by_cases hmem : jsGroup o ∈ acc.map Prod.fst
    · simp [dedupFirst, hmem]
    · simp [dedupFirst, hmem, List.append_assoc]

theorem mem_dedupFirst (x : String) :
    ∀ (gs seen : List String), x ∈ dedupFirst seen gs ↔ x ∈ gs ∧ x ∉ seen := by
  intro gs
  induction gs with
  | nil => intro seen; simp [dedupFirst]
  | cons g rest ih =>
    intro seen
    by_cases h : g ∈ seen
    · rw [dedupFirst, if_pos h, ih]
      constructor
      · rintro ⟨hr, hs⟩
        exact ⟨List.mem_cons_of_mem _ hr, hs⟩
      · rintro ⟨hgr, hs⟩
        rcases List.mem_cons.mp hgr with rfl | hr
        · exact absurd h hs
        · exact ⟨hr, hs⟩
    · rw [dedupFirst, if_neg h]
      constructor
      · intro hx
        rcases List.mem_cons.mp hx with rfl | hx'
        · exact ⟨List.mem_cons_self _ _, h⟩
        · rcases (ih _).mp hx' with ⟨hr, hs⟩
          exact ⟨List.mem_cons_of_mem _ hr, fun hx'' => hs (List.mem_append_left _ hx'')⟩
      · rintro ⟨hgr, hs⟩
        rcases List.mem_cons.mp hgr with rfl | hr
        · exact List.mem_cons_self _ _
        · by_cases hxg : x = g
          · subst hxg; exact List.mem_cons_self _ _
          · refine List.mem_cons_of_mem _ ((ih _).mpr ⟨hr, ?_⟩)
            intro hx'
            rcases List.mem_append.mp hx' with h1 | h1
            · exact hs h1
            · exact hxg (List.mem_singleton.mp h1)

theorem nodup_dedupFirst :
    ∀ (gs seen : List String), (dedupFirst seen gs).Nodup := by
  intro gs
  induction gs with
  | nil => intro seen; simp [dedupFirst]
  | cons g rest ih =>
    intro seen
    by_cases h : g ∈ seen
    · rw [dedupFirst, if_pos h]; exact ih _
    · rw [dedupFirst, if_neg h]
      refine List.nodup_cons.mpr ⟨?_, ih _⟩
      intro hg
      rcases (mem_dedupFirst _ _ _).mp hg with ⟨_, hs⟩
      exact hs (List.mem_append_right _ (List.mem_singleton.mpr rfl))

theorem lookupB_of_mem :
    ∀ (assoc : List (String × List SelectOption)) (g : String) (b : List SelectOption),
      (assoc.map Prod.fst).Nodup → (g, b) ∈ assoc → lookupB g assoc = some b := by
  intro assoc
  induction assoc with
  | nil => intro g b _ hmem; simp at hmem
  | cons p rest ih =>
    intro g b hnd hmem
    obtain ⟨k, v⟩ := p
    rw [List.map_cons] at hnd
    have hnd' := List.nodup_cons.mp hnd
    rcases List.mem_cons.mp hmem with heq | hmem'
    · injection heq with h1 h2
      subst h1
      subst h2
      simp [lookupB]
    · by_cases hk : k = g
      · subst hk
        exfalso
        exact hnd'.1 (List.mem_map.mpr ⟨(k, b), hmem', rfl⟩)
      · rw [lookupB, if_neg hk]
        exact ih g b hnd'.2 hmem'

theorem keys_groupBuckets (options : List SelectOption) :
    (groupBuckets options).map Prod.fst = firstSeenGroups options := by
  simpa [groupBuckets, firstSeenGroups] using keys_foldl options []

theorem nodup_keys_groupBuckets (options : List SelectOption) :
    ((groupBuckets options).map Prod.fst).Nodup := by
  rw [keys_groupBuckets]
  exact nodup_dedupFirst _ _

theorem mem_keys_groupBuckets (options : List SelectOption) (g : String) :
    g ∈ (groupBuckets options).map Prod.fst ↔ ∃ o ∈ options, jsGroup o = g := by
  rw [keys_groupBuckets, firstSeenGroups, mem_dedupFirst]
  simp

theorem bucket_eq_filter (options : List SelectOption) (g : String)
    (b : List SelectOption) (hmem : (g, b) ∈ groupBuckets options) :
    b = options.filter (fun o => jsGroup o == g) := by
  have hl := lookupB_of_mem _ g b (nodup_keys_groupBuckets options) hmem
  have hn := lookupB_foldl_none options [] g rfl
  simp only [groupBuckets] at hl
  rw [hl] at hn
  by_cases ha : options.any (fun o => jsGroup o == g)
  · rw [if_pos ha] at hn
    exact Option.some.inj hn
  · rw [if_neg ha] at hn
    cases hn

theorem mem_bucket_iff (options : List SelectOption) (o : SelectOption)
    (ho : o ∈ options) (g : String) (b : List SelectOption)
    (hmem : (g, b) ∈ groupBuckets options) :
    o ∈ b ↔ g = jsGroup o := by
  rw [bucket_eq_filter options g b hmem, List.mem_filter]
  simp only [beq_iff_eq]
  constructor
  · rintro ⟨-, h⟩
    exact h.symm
  · intro h
    exact ⟨ho, h.symm⟩

theorem filter_buckets_eq (o : SelectOption) :
    ∀ (assoc : List (String × List SelectOption)) (t : String),
      (assoc.map Prod.fst).Nodup →
      (∀ p ∈ assoc, o ∈ p.2 ↔ p.1 = t) →
      t ∈ assoc.map Prod.fst →
      (assoc.filter (fun p => decide (o ∈ p.2))).map Prod.fst = [t] := by
  intro assoc
  induction assoc with
  | nil =>
    intro t _ _ ht
    simp at ht
  | cons p rest ih =>
    intro t hnd hiff ht
    rw [List.map_cons] at hnd
    have hnd' := List.nodup_cons.mp hnd
    by_cases hp : o ∈ p.2
    · have hpt : p.1 = t := (hiff p (List.mem_cons_self _ _)).mp hp
      have hrest : rest.filter (fun q => decide (o ∈ q.2)) = [] := by
        refine List.filter_eq_nil_iff.mpr ?_
        intro q hq
        simp only [decide_eq_true_eq]
        intro hoq
        have hqt : q.1 = t := (hiff q (List.mem_cons_of_mem _ hq)).mp hoq
        exact hnd'.1 (List.mem_map.mpr ⟨q, hq, by rw [hqt, hpt]⟩)
      simp [List.filter_cons, hp, hrest, hpt]
    · have hpt : p.1 ≠ t := fun h => hp ((hiff p (List.mem_cons_self _ _)).mpr h)
      have ht' : t ∈ rest.map Prod.fst := by
        rw [List.map_cons] at ht
        rcases List.mem_cons.mp ht with h | h
        · exact absurd h.symm hpt
        · exact h
      rw [List.filter_cons_of_neg (by simp [hp])]
      exact ih t hnd'.2 (fun q hq => hiff q (List.mem_cons_of_mem _ hq)) ht'

theorem objectEntries_of_no_index (assoc : List (String × List SelectOption))
    (h : ∀ p ∈ assoc, isArrayIndex p.1 = false) :
    objectEntries assoc = assoc := by
  have h1 : assoc.filter (fun p => isArrayIndex p.1) = [] :=
    List.filter_eq_nil_iff.mpr (fun p hp => by simp [h p hp])
  have h2 : assoc.filter (fun p => !isArrayIndex p.1) = assoc :=
    List.filter_eq_self.mpr (fun p hp => by simp [h p hp])
  rw [objectEntries, h1, h2]
  rfl

theorem runReduce_no_proto (options : List SelectOption) :
    ∀ acc : List (String × List SelectOption),
      (∀ o ∈ options, jsGroup o ∉ protoProps) →
      runReduce acc options =
        some (options.foldl (fun acc o => pushToBucket acc (jsGroup o) o) acc) := by
  induction options with
  | nil =>
    intro acc _
    rfl
  | cons o rest ih =>
    intro acc h
    have ho := h o (List.mem_cons_self _ _)
    have hstep : reduceStep acc o = some (pushToBucket acc (jsGroup o) o) := by
      by_cases hmem : jsGroup o ∈ acc.map Prod.fst
      · simp [reduceStep, hmem]
      · simp [reduceStep, hmem, ho]
    simp only [runReduce, hstep, List.foldl_cons]
    exact ih (pushToBucket acc (jsGroup o) o)
      (fun o2 ho2 => h o2 (List.mem_cons_of_mem _ ho2))

theorem groupedObject_eq_of_no_proto (options : List SelectOption)
    (h : ∀ o ∈ options, jsGroup o ∉ protoProps) :
    groupedObject options = some (groupBuckets options) :=
  runReduce_no_proto options [] h

/-! ### Claim theorems -/

/-- C1 (counterexample): for the option list whose group names are "2"
then "1", the rendered bucket order is `["1", "2"]`, not the first-seen
order `["2", "1"]`, because `Object.entries` lists array-index keys
first in ascending numeric order. -/
theorem bucket_order_counterexample :
    (groupedOptions [⟨"a", "A", some "2"⟩, ⟨"b", "B", some "1"⟩]).map Prod.fst ≠
      firstSeenGroups [⟨"a", "A", some "2"⟩, ⟨"b", "B", some "1"⟩] := by
  decide

/-- C1 (amended): provided no derived group name is a canonical
array-index string and none collides with an inherited `Object.prototype`
property name, the reduce completes, the group buckets of
`Object.entries(groupedOptions)` appear in the order each distinct group
name was first seen, and every bucket holds exactly the options of its
group in original relative order (the sublist selected by
`List.filter`). -/
theorem bucket_order_first_seen (options : List SelectOption)
    (h : ∀ o ∈ options, isArrayIndex (jsGroup o) = false)
    (hproto : ∀ o ∈ options, jsGroup o ∉ protoProps) :
    groupedObject options = some (groupBuckets options) ∧
    (groupedOptions options).map Prod.fst = firstSeenGroups options ∧
    ∀ g b, (g, b) ∈ groupedOptions options →
      b = options.filter (fun o => jsGroup o == g) := by
  have hkeys : ∀ p ∈ groupBuckets options, isArrayIndex p.1 = false := by
    intro p hp
    have hp1 : p.1 ∈ (groupBuckets options).map Prod.fst :=
      List.mem_map.mpr ⟨p, hp, rfl⟩
    rcases (mem_keys_groupBuckets options p.1).mp hp1 with ⟨o, ho, hgo⟩
    rw [← hgo]
    exact h o ho
  have hid : groupedOptions options = groupBuckets options :=
    objectEntries_of_no_index _ hkeys
  refine ⟨groupedObject_eq_of_no_proto options hproto, ?_, ?_⟩
  · rw [hid, keys_groupBuckets]
  · intro g b hmem
    rw [hid] at hmem
    exact bucket_eq_filter options g b hmem

/-- Witness for the amended bucket-order theorem at the spec's example
option list (groups "G1", "G1", then absent). -/
theorem bucket_order_first_seen_witness :
    (groupedOptions [⟨"a", "Alpha", some "G1"⟩, ⟨"b", "Beta", some "G1"⟩,
        ⟨"c", "Gamma", none⟩]).map Prod.fst =
      firstSeenGroups [⟨"a", "Alpha", some "G1"⟩, ⟨"b", "Beta", some "G1"⟩,
        ⟨"c", "Gamma", none⟩] ∧
    [(⟨"a", "Alpha", some "G1"⟩ : SelectOption), ⟨"b", "Beta", some "G1"⟩] =
      List.filter (fun o => jsGroup o == "G1")
        [⟨"a", "Alpha", some "G1"⟩, ⟨"b", "Beta", some "G1"⟩, ⟨"c", "Gamma", none⟩] :=
  ⟨(bucket_order_first_seen _ (by decide) (by decide)).2.1,
   (bucket_order_first_seen _ (by decide) (by decide)).2.2 "G1"
     [⟨"a", "Alpha", some "G1"⟩, ⟨"b", "Beta", some "G1"⟩] (by decide)⟩

/-- C2 (counterexample): at group name "toString" the reduce finds the
inherited `Object.prototype.toString` truthy, skips bucket creation, and
`acc[group].push` throws `TypeError`: the reduce produces no buckets at
all, so the option is placed in no bucket, refuting the claim for this
option list. -/
theorem grouping_partition_counterexample :
    groupedObject [⟨"a", "A", some "toString"⟩] = none := by
  decide

/-- C2 (amended): provided no derived group name collides with an
inherited `Object.prototype` property name, the reduce at lines 32–39
completes, and every option of the list lies in exactly one bucket — the
list of bucket names whose bucket contains the option is exactly
`[jsGroup o]` — and the bucket name is the option's `group` field,
defaulting to "Other" exactly when that field is absent or the empty
string. -/
theorem grouping_partition (options : List SelectOption)
    (hproto : ∀ o ∈ options, jsGroup o ∉ protoProps)
    (o : SelectOption) (ho : o ∈ options) :
    groupedObject options = some (groupBuckets options) ∧
    ((groupBuckets options).filter (fun p => decide (o ∈ p.2))).map Prod.fst
        = [jsGroup o] ∧
    (∀ g b, (g, b) ∈ groupBuckets options → (o ∈ b ↔ g = jsGroup o)) ∧
    (o.group = none → jsGroup o = "Other") ∧
    (o.group = some "" → jsGroup o = "Other") ∧
    (∀ g, o.group = some g → g ≠ "" → jsGroup o = g) := by
  refine ⟨groupedObject_eq_of_no_proto options hproto, ?_, ?_, ?_, ?_, ?_⟩
  · refine filter_buckets_eq o (groupBuckets options) (jsGroup o)
      (nodup_keys_groupBuckets options) ?_ ?_
    · intro p hp
      obtain ⟨g, b⟩ := p
      exact mem_bucket_iff options o ho g b hp
    · exact (mem_keys_groupBuckets options (jsGroup o)).mpr ⟨o, ho, rfl⟩
  · intro g b hmem
    exact mem_bucket_iff options o ho g b hmem
  · intro hg
    simp [jsGroup, hg]
  · intro hg
    simp [jsGroup, hg]
  · intro g hg hne
    simp [jsGroup, hg, hne]

/-- Witness for the grouping partition: the reduce completes on the
example list and the ungrouped option `"c"` lies exactly in the bucket
named "Other". -/
theorem grouping_partition_witness :
    groupedObject [⟨"a", "Alpha", some "G1"⟩, ⟨"c", "Gamma", none⟩] =
        some (groupBuckets [⟨"a", "Alpha", some "G1"⟩, ⟨"c", "Gamma", none⟩]) ∧
    ((groupBuckets [⟨"a", "Alpha", some "G1"⟩, ⟨"c", "Gamma", none⟩]).filter
        (fun p => decide ((⟨"c", "Gamma", none⟩ : SelectOption) ∈ p.2))).map Prod.fst
      = [jsGroup ⟨"c", "Gamma", none⟩] :=
  ⟨(grouping_partition [⟨"a", "Alpha", some "G1"⟩, ⟨"c", "Gamma", none⟩]
      (by decide) ⟨"c", "Gamma", none⟩ (by decide)).1,
   (grouping_partition [⟨"a", "Alpha", some "G1"⟩, ⟨"c", "Gamma", none⟩]
      (by decide) ⟨"c", "Gamma", none⟩ (by decide)).2.1⟩

/-- C3: activating an option row with value `v` while the panel is open
invokes `onChange` exactly once, with `v`, and closes the panel; nothing
else changes. -/
theorem select_option_reports_once (disabled : Bool) (v : String) :
    stepEvent disabled true (Event.optionClick v) = (false, [v]) :=
  rfl

/-- C4: a pointer press whose target lies outside the container, while the
panel is open, closes the panel and performs no `onChange` invocation. -/
theorem outside_press_dismisses (disabled : Bool) :
    stepEvent disabled true (Event.press false) = (false, []) :=
  rfl

theorem runEvents_disabled_triggers (n : Nat) :
    ∀ (s : Bool) (l : List String),
      (List.replicate n Event.triggerClick).foldl
        (fun st e =>
          let r := stepEvent true st.1 e
          (r.1, st.2 ++ r.2))
        (s, l) = (s, l) := by
  induction n with
  | zero => intro s l; rfl
  | succ n ih =>
    intro s l
    rw [List.replicate_succ, List.foldl_cons]
    simpa [stepEvent] using ih s l

/-- C5: with `disabled = true`, any finite sequence of trigger activations
leaves `isOpen` unchanged and never invokes `onChange`; starting from the
initial state it stays closed. -/
theorem disabled_trigger_inert (s : Bool) (n : Nat) :
    runEvents true s (List.replicate n Event.triggerClick) = (s, []) ∧
    runEvents true initialIsOpen (List.replicate n Event.triggerClick) = (false, []) :=
  ⟨runEvents_disabled_triggers n s [], runEvents_disabled_triggers n false []⟩

/-- C6: when no option's value equals the current value, the trigger shows
the placeholder (whose default is "Select..."): it is never blank when the
placeholder is non-blank and never the raw value when the placeholder
differs from it. -/
theorem label_fallback (value placeholder : String) (options : List SelectOption)
    (h : ∀ opt ∈ options, opt.value ≠ value) :
    selectedLabel value options placeholder = placeholder ∧
    defaultPlaceholder = "Select..." ∧
    (placeholder ≠ "" → selectedLabel value options placeholder ≠ "") ∧
    (placeholder ≠ value → selectedLabel value options placeholder ≠ value) := by
  have hf : options.find? (fun opt => opt.value == value) = none := by
    apply List.find?_eq_none.mpr
    intro opt hopt
    simp [h opt hopt]
  have hsel : selectedLabel value options placeholder = placeholder := by
    simp [selectedLabel, hf]
  refine ⟨hsel, rfl, ?_, ?_⟩
  · intro hp
    rw [hsel]
    exact hp
  · intro hp
    rw [hsel]
    exact hp

/-- Witness for the label fallback on a list with no matching value. -/
theorem label_fallback_witness :
    selectedLabel "x" [⟨"a", "Alpha", some "G1"⟩] defaultPlaceholder =
        defaultPlaceholder ∧
    selectedLabel "x" [⟨"a", "Alpha", some "G1"⟩] defaultPlaceholder ≠ "" :=
  ⟨(label_fallback "x" defaultPlaceholder [⟨"a", "Alpha", some "G1"⟩] (by decide)).1,
   (label_fallback "x" defaultPlaceholder [⟨"a", "Alpha", some "G1"⟩]
     (by decide)).2.2.1 (by decide)⟩

/-- C7: whenever `isOpen` is false the rendered tree is the trigger alone:
the panel and every option row are absent from the render tree, for all
props and option lists (every reachable closed state). -/
theorem panel_absent_when_closed (value : String) (options : List SelectOption)
    (placeholder : String) (disabled : Bool) :
    render value options placeholder disabled false =
      [RNode.trigger (selectedLabel value options placeholder) disabled false] ∧
    (render value options placeholder disabled false).filter isOptionRow = [] :=
  ⟨rfl, rfl⟩

theorem effectTrace_foldl_inv (updates : List Bool) :
    ∀ st : Bool × Nat, st.2 = (if st.1 then 1 else 0) →
      (updates.foldl (fun st b => (b, commitEffect st.1 st.2 b)) st).2 =
        if (updates.foldl (fun st b => (b, commitEffect st.1 st.2 b)) st).1 then 1
        else 0 := by
  induction updates with
  | nil => intro st h; exact h
  | cons b rest ih =>
    intro st h
    rw [List.foldl_cons]
    apply ih
    obtain ⟨p, c⟩ := st
    simp only at h
    cases p <;> cases b <;>
      simp [commitEffect, effectSetup, effectCleanup, h]

/-- C8: after mounting (closed) and any sequence of committed re-renders,
the number of registered document `mousedown` listeners is 1 exactly when
the panel is open and 0 when it is closed — so it never exceeds one — and
the unmount cleanup leaves 0. -/
theorem listener_lockstep (updates : List Bool) :
    (effectTrace updates).2 = (if (effectTrace updates).1 then 1 else 0) ∧
    (effectTrace updates).2 ≤ 1 ∧
    effectCleanup (effectTrace updates).1 (effectTrace updates).2 = 0 := by
  have h : (effectTrace updates).2 = (if (effectTrace updates).1 then 1 else 0) :=
    effectTrace_foldl_inv updates (initialIsOpen, effectSetup initialIsOpen 0) rfl
  refine ⟨h, ?_, ?_⟩
  · rw [h]
    cases (effectTrace updates).1 <;> simp
  · have h2 := h
    cases hb : (effectTrace updates).1 <;> rw [hb] at h2 <;>
      simp [effectCleanup, hb, h2]

/-- C9: `isOpen` is initialized to closed; a non-disabled trigger
activation flips it without invoking `onChange`, and two consecutive
activations restore the original state. -/
theorem toggle_flip_involutive (b : Bool) :
    initialIsOpen = false ∧
    stepEvent false b Event.triggerClick = (!b, []) ∧
    (stepEvent false (stepEvent false b Event.triggerClick).1 Event.triggerClick).1
      = b := by
  cases b <;> exact ⟨rfl, rfl, rfl⟩

theorem find?_first_match (value : String) (opt : SelectOption)
    (l2 : List SelectOption) :
    ∀ l1 : List SelectOption, (∀ o ∈ l1, o.value ≠ value) → opt.value = value →
      (l1 ++ opt :: l2).find? (fun o => o.value == value) = some opt := by
  intro l1
  induction l1 with
  | nil =>
    intro _ hv
    rw [List.nil_append]
    exact List.find?_cons_of_pos _ (by simp [hv])
  | cons a rest ih =>
    intro h hv
    rw [List.cons_append,
      List.find?_cons_of_neg _ (by simp [h a (List.mem_cons_self _ _)])]
    exact ih (fun o ho => h o (List.mem_cons_of_mem _ ho)) hv

/-- C10: the trigger label comes from the first option whose value
matches the current value; when that option's label is the empty string
the placeholder is shown instead, and later options sharing the value are
ignored. -/
theorem first_match_label (value placeholder : String)
    (l1 l2 : List SelectOption) (opt : SelectOption)
    (h1 : ∀ o ∈ l1, o.value ≠ value) (h2 : opt.value = value) :
    selectedLabel value (l1 ++ opt :: l2) placeholder =
      if opt.label = "" then placeholder else opt.label := by
  simp [selectedLabel, find?_first_match value opt l2 l1 h1 h2]

/-- Witness: first matching option has an empty label, a later one a
non-empty label; the placeholder is shown. -/
theorem first_match_label_witness :
    selectedLabel "b"
        ([⟨"a", "Alpha", none⟩] ++ ⟨"b", "", none⟩ :: [⟨"b", "Beta2", none⟩])
        defaultPlaceholder = defaultPlaceholder := by
  have h := first_match_label "b" defaultPlaceholder [⟨"a", "Alpha", none⟩]
    [⟨"b", "Beta2", none⟩] ⟨"b", "", none⟩ (by decide) rfl
  simpa using h

end GroupedSelect
